import Mathlib

set_option maxHeartbeats 1000000

/-!
Verification development for the remote desktop signaling server.

The server keeps two association maps: one from connection identifiers
(strings of the shape NNN-NNN-NNN) to peer records, and one from request
identifiers to pending connection requests.  Transport sessions (socket.io
sockets) issue events: register, request-connection, connection-response,
end-session, relay messages, and disconnect.  Below, each event handler of
the source is translated into a pure Lean function over an explicit server
state; message pushes to live transports are collected in an output list of
Emit values, and the nondeterministic inputs of the source (random draws of
Math.random, fresh uuid request identifiers, socket identities) are passed
as explicit arguments.
-/

/-- stripD removes every dash character from a list of characters; it models
the JavaScript expression that replaces all dashes by the empty string. -/
def stripD (l : List Char) : List Char := l.filter (fun c => c != '-')

/-- stripDashes removes every dash from a string, modelling the normalization
used by the server when comparing connection identifiers. -/
def stripDashes (s : String) : String := String.mk (stripD s.data)

/-- sliceStr models the JavaScript slice operation on strings with a start
index and an exclusive end index. -/
def sliceStr (s : String) (a b : Nat) : String := String.mk ((s.data.drop a).take (b - a))

/-- formatId joins the three 3-character slices of a string with dashes, as
the server does when building an NNN-NNN-NNN identifier. -/
def formatId (s : String) : String :=
  sliceStr s 0 3 ++ "-" ++ sliceStr s 3 6 ++ "-" ++ sliceStr s 6 9

/-- digitChar maps a digit value to its decimal character. -/
def digitChar (d : Nat) : Char := Char.ofNat (48 + d)

/-- natToDigits computes the decimal digit characters of a number, most
significant first, using explicit fuel for structural recursion. -/
def natToDigits : Nat → Nat → List Char
  | 0, _ => []
  | _ + 1, 0 => []
  | fuel + 1, n => natToDigits fuel (n / 10) ++ [digitChar (n % 10)]

/-- natToString models the JavaScript toString operation on a nonnegative
number in base 10. -/
def natToString (n : Nat) : String :=
  if n = 0 then "0" else String.mk (natToDigits (n + 1) n)

/-- generateConnectionId models the source helper of the same name applied to
the number drawn from Math.random: the draw, a 9 digit number, is rendered
in decimal and formatted as three dash-joined groups. -/
def generateConnectionId (n : Nat) : String := formatId (natToString n)

/-- mapGet models Map.get on the insertion-ordered association list. -/
def mapGet {α : Type} : List (String × α) → String → Option α
  | [], _ => none
  | (k1, v) :: rest, k => if k1 = k then some v else mapGet rest k

/-- mapHas models Map.has. -/
def mapHas {α : Type} (m : List (String × α)) (k : String) : Bool := (mapGet m k).isSome

/-- mapSet models Map.set: an existing key keeps its position and gets the
new value, a new key is appended at the end. -/
def mapSet {α : Type} : List (String × α) → String → α → List (String × α)
  | [], k, v => [(k, v)]
  | (k1, v1) :: rest, k, v => if k1 = k then (k, v) :: rest else (k1, v1) :: mapSet rest k v

/-- mapDelete models Map.delete (keys are unique in every map the server
builds, so removing every occurrence agrees with the JavaScript Map). -/
def mapDelete {α : Type} : List (String × α) → String → List (String × α)
  | [], _ => []
  | (k1, v1) :: rest, k => if k1 = k then mapDelete rest k else (k1, v1) :: mapDelete rest k

/-- Peer is a registry record: the identifier of the owning transport socket,
a status string (available or busy), and the optional identifier of the
paired peer. -/
structure Peer where
  socketId : String
  status : String
  connectedTo : Option String
deriving DecidableEq, Repr

/-- PendingRequest is a pending connection request stored by the server. -/
structure PendingRequest where
  viewerSocketId : String
  viewerConnectionId : Option String
  hostSocketId : String
  hostConnectionId : String
deriving DecidableEq, Repr

/-- ServerState bundles the two global maps of the server. -/
structure ServerState where
  peers : List (String × Peer)
  pending : List (String × PendingRequest)
deriving DecidableEq, Repr

/-- Socket models a transport session: its socket identifier and the
connectionId property the server stores on the socket object. -/
structure Socket where
  sid : String
  connectionId : Option String
deriving DecidableEq, Repr

/-- findEntryByConnectionId is the scan over the peers map comparing
dash-stripped keys with the dash-stripped query; it returns the key together
with the record (the source captures both in its request-connection loop). -/
def findEntryByConnectionId (ps : List (String × Peer)) (connectionId : String) :
    Option (String × Peer) :=
  ps.find? (fun kv => stripDashes kv.1 == stripDashes connectionId)

/-- findPeerByConnectionId is the source helper of the same name, returning
only the record. -/
def findPeerByConnectionId (ps : List (String × Peer)) (connectionId : String) : Option Peer :=
  (findEntryByConnectionId ps connectionId).map Prod.snd

/-- findBySocketId models the scan over the values of the peers map looking
for a record owned by the given socket. -/
def findBySocketId (ps : List (String × Peer)) (s : String) : Option Peer :=
  (ps.map Prod.snd).find? (fun p => p.socketId == s)

/-- Emit is a message pushed to the live transport of some peer. -/
inductive Emit where
  | connectionRequest (toSocket requestId : String) (viewerId : Option String)
      (viewerName : String) (password : Option String)
  | connectionAccepted (toSocket hostId : String)
  | connectionRejected (toSocket hostId : String)
  | connectionRejectedDisconnect (toSocket : String)
  | peerDisconnected (toSocket peerId : String)
  | sessionEnded (toSocket : String) (fromId : Option String)
  | relayMessage (kind toSocket : String) (fromId : Option String)
deriving DecidableEq, Repr

/-- orDefault models the JavaScript or-else idiom on an optional string
(empty strings are falsy and replaced by the default). -/
def orDefault (o : Option String) (d : String) : String :=
  match o with
  | some s => if s = "" then d else s
  | none => d

/-- orUndef models the JavaScript expression that keeps a truthy string and
turns everything else into undefined. -/
def orUndef (o : Option String) : Option String :=
  match o with
  | some s => if s = "" then none else some s
  | none => none

/-- preferredCandidate models the preferred identifier check of register: a
truthy preferredId whose dash-stripped form has length 9 is formatted, and
adopted when the formatted key is not already in the peers map. -/
def preferredCandidate (ps : List (String × Peer)) : Option String → Option String
  | none => none
  | some p =>
    if p = "" then none
    else
      let norm := stripDashes p
      let formatted := formatId norm
      if norm.length = 9 ∧ mapHas ps formatted = false then some formatted else none

/-- genLoop models the generate-then-retry-while-taken loop of register over
an explicit list of random draws; it returns the first draw whose formatted
identifier is not in the peers map. -/
def genLoop (ps : List (String × Peer)) : List Nat → Option String
  | [] => none
  | n :: rest =>
    let cid := generateConnectionId n
    if mapHas ps cid then genLoop ps rest else some cid

/-- newPeer is the record the server stores at registration time. -/
def newPeer (sid : String) : Peer := ⟨sid, "available", none⟩

/-- registerFresh is the non-idempotent part of the register handler: choose
the preferred identifier when acceptable, otherwise generate one, then store
the fresh record and remember the identifier on the socket. -/
def registerFresh (st : ServerState) (sock : Socket) (preferredId : Option String)
    (draws : List Nat) : Option (ServerState × Socket × String) :=
  let chosen :=
    match preferredCandidate st.peers preferredId with
    | some c => some c
    | none => genLoop st.peers draws
  match chosen with
  | none => none
  | some cid =>
      some ({ st with peers := mapSet st.peers cid (newPeer sock.sid) },
            { sock with connectionId := some cid }, cid)

/-- register models the register event handler.  When the socket already has
a connectionId that is still a key of the peers map, the stored identifier is
returned and nothing changes; otherwise a fresh registration happens.  The
result is the new server state, the updated socket, and the identifier given
to the caller; none models divergence of the retry loop when every supplied
draw collides. -/
def register (st : ServerState) (sock : Socket) (preferredId : Option String)
    (draws : List Nat) : Option (ServerState × Socket × String) :=
  match sock.connectionId with
  | some cid =>
      if mapHas st.peers cid then some (st, sock, cid)
      else registerFresh st sock preferredId draws
  | none => registerFresh st sock preferredId draws

/-- RCResult is the value returned through the request-connection callback. -/
inductive RCResult where
  | ok (requestId : String)
  | err (message : String)
deriving DecidableEq, Repr

/-- requestConnection models the request-connection event handler. -/
def requestConnection (st : ServerState) (sock : Socket) (targetId : String)
    (viewerName password : Option String) (freshId : String) :
    ServerState × List Emit × RCResult :=
  match findEntryByConnectionId st.peers targetId with
  | none => (st, [], RCResult.err "Peer not found or offline")
  | some (targetKey, targetPeer) =>
    if targetPeer.status = "busy" then
      (st, [], RCResult.err "Peer is busy with another session")
    else
      let req : PendingRequest := ⟨sock.sid, sock.connectionId, targetPeer.socketId, targetKey⟩
      ({ st with pending := mapSet st.pending freshId req },
       [Emit.connectionRequest targetPeer.socketId freshId sock.connectionId
          (orDefault viewerName "Unknown") (orUndef password)],
       RCResult.ok freshId)

/-- updatePeer models an in-place mutation of the record stored at a key:
when the key is present its record is rewritten through f, otherwise nothing
happens. -/
def updatePeer (ps : List (String × Peer)) (k : String) (f : Peer → Peer) :
    List (String × Peer) :=
  match mapGet ps k with
  | some p => mapSet ps k (f p)
  | none => ps

/-- setBusy is the mutation performed on both records when a connection
request is accepted. -/
def setBusy (partner : Option String) (p : Peer) : Peer :=
  { p with status := "busy", connectedTo := partner }

/-- setAvailable is the mutation that resets a record after a session ends or
a peer disconnects. -/
def setAvailable (p : Peer) : Peer := { p with status := "available", connectedTo := none }

/-- connectionResponse models the connection-response event handler.  The
sender socket is received like in the source but never consulted. -/
def connectionResponse (st : ServerState) (_sock : Socket) (requestId : String)
    (accepted : Bool) : ServerState × List Emit :=
  match mapGet st.pending requestId with
  | none => (st, [])
  | some req =>
    match findBySocketId st.peers req.viewerSocketId with
    | none => ({ st with pending := mapDelete st.pending requestId }, [])
    | some viewerPeer =>
      if accepted then
        let peers1 := updatePeer st.peers req.hostConnectionId (setBusy req.viewerConnectionId)
        let peers2 :=
          match req.viewerConnectionId with
          | some v => updatePeer peers1 v (setBusy (some req.hostConnectionId))
          | none => peers1
        (⟨peers2, mapDelete st.pending requestId⟩,
         [Emit.connectionAccepted viewerPeer.socketId req.hostConnectionId])
      else
        ({ st with pending := mapDelete st.pending requestId },
         [Emit.connectionRejected viewerPeer.socketId req.hostConnectionId])

/-- endSessionTarget is the first half of the end-session handler: the target
record (found by normalized identifier) is reset and notified. -/
def endSessionTarget (ps : List (String × Peer)) (fromId : Option String)
    (targetId : String) : List (String × Peer) × List Emit :=
  match findEntryByConnectionId ps targetId with
  | some (k, p) => (mapSet ps k (setAvailable p), [Emit.sessionEnded p.socketId fromId])
  | none => (ps, [])

/-- endSession models the end-session event handler: the target record is
reset and notified, then the callers own record is reset. -/
def endSession (st : ServerState) (sock : Socket) (targetId : String) :
    ServerState × List Emit :=
  let step1 := endSessionTarget st.peers sock.connectionId targetId
  let peers2 :=
    match sock.connectionId with
    | some cid => updatePeer step1.1 cid setAvailable
    | none => step1.1
  (⟨peers2, st.pending⟩, step1.2)

/-- relayForward models the fire-and-forget relay handlers (host-ready,
camera events, webrtc offer, answer and candidates): a lookup of the target
followed by a push, with silent drop when the target is absent. -/
def relayForward (st : ServerState) (sock : Socket) (kind targetId : String) : List Emit :=
  match findPeerByConnectionId st.peers targetId with
  | some p => [Emit.relayMessage kind p.socketId sock.connectionId]
  | none => []

/-- resetConnectedPeer is the first half of the grace-period cleanup: when
the disconnected record was paired, the partner (when still registered) is
notified and reset. -/
def resetConnectedPeer (ps : List (String × Peer)) (did : String) :
    Option String → List (String × Peer) × List Emit
  | none => (ps, [])
  | some ct =>
    match findEntryByConnectionId ps ct with
    | none => (ps, [])
    | some (k, cp) =>
        (mapSet ps k (setAvailable cp), [Emit.peerDisconnected cp.socketId did])

/-- reapPending is the pending-requests sweep of the grace-period cleanup:
requests hosted by the disconnected peer are dropped after notifying their
viewer (when its socket still owns a record), requests issued by the
disconnected peer are dropped silently, everything else is kept. -/
def reapPending (did : String) (ps : List (String × Peer)) :
    List (String × PendingRequest) → List (String × PendingRequest) × List Emit
  | [] => ([], [])
  | (rid, r) :: rest =>
    let tail := reapPending did ps rest
    if r.hostConnectionId = did then
      match findBySocketId ps r.viewerSocketId with
      | some vp => (tail.1, Emit.connectionRejectedDisconnect vp.socketId :: tail.2)
      | none => (tail.1, tail.2)
    else if r.viewerConnectionId = some did then
      (tail.1, tail.2)
    else
      ((rid, r) :: tail.1, tail.2)

/-- graceCleanup models the body of the 10 second timeout scheduled at
disconnect time: did is the connection identifier captured at disconnect and
capturedSid the socket identifier captured at disconnect.  A missing record,
or a record now owned by a different socket, makes the task a no-op. -/
def graceCleanup (st : ServerState) (did : String) (capturedSid : String) :
    ServerState × List Emit :=
  match mapGet st.peers did with
  | none => (st, [])
  | some peer =>
    if peer.socketId ≠ capturedSid then (st, [])
    else
      let r1 := resetConnectedPeer st.peers did peer.connectedTo
      let r2 := reapPending did r1.1 st.pending
      (⟨mapDelete r1.1 did, r2.1⟩, r1.2 ++ r2.2)

/-- World is the whole server: the two state maps, the connected sockets with
the connectionId property stored on each, and the scheduled grace-period
tasks (captured connection identifier and captured socket identifier). -/
structure World where
  st : ServerState
  socks : List (String × Option String)
  tasks : List (String × String)
deriving DecidableEq, Repr

/-- Event is one incoming transport event together with the nondeterministic
data resolved at handling time (random draws, fresh request identifier). -/
inductive Event where
  | connect (sid : String)
  | register (sid : String) (preferredId : Option String) (draws : List Nat)
  | requestConnection (sid targetId : String) (viewerName password : Option String)
      (freshId : String)
  | connectionResponse (sid requestId : String) (accepted : Bool)
  | endSession (sid targetId : String)
  | relay (sid kind targetId : String)
  | disconnect (sid : String)
  | graceFire (did capturedSid : String)
deriving DecidableEq, Repr

/-- stepW dispatches one event to the corresponding handler. -/
def stepW (w : World) (e : Event) : World :=
  match e with
  | Event.connect sid => { w with socks := mapSet w.socks sid none }
  | Event.register sid pref draws =>
    match mapGet w.socks sid with
    | none => w
    | some cid? =>
      match register w.st ⟨sid, cid?⟩ pref draws with
      | none => w
      | some (st1, sock1, _) =>
          { w with st := st1, socks := mapSet w.socks sid sock1.connectionId }
  | Event.requestConnection sid targetId vn pw fresh =>
    match mapGet w.socks sid with
    | none => w
    | some cid? => { w with st := (requestConnection w.st ⟨sid, cid?⟩ targetId vn pw fresh).1 }
  | Event.connectionResponse sid rid acc =>
    match mapGet w.socks sid with
    | none => w
    | some cid? => { w with st := (connectionResponse w.st ⟨sid, cid?⟩ rid acc).1 }
  | Event.endSession sid targetId =>
    match mapGet w.socks sid with
    | none => w
    | some cid? => { w with st := (endSession w.st ⟨sid, cid?⟩ targetId).1 }
  | Event.relay _ _ _ => w
  | Event.disconnect sid =>
    match mapGet w.socks sid with
    | none => w
    | some cid? =>
      let w1 := { w with socks := mapDelete w.socks sid }
      match cid? with
      | some cid => { w1 with tasks := w1.tasks ++ [(cid, sid)] }
      | none => w1
  | Event.graceFire did csid =>
      { w with st := (graceCleanup w.st did csid).1, tasks := w.tasks.erase (did, csid) }

/-- drawsOk states the guarantee Math.random gives about every draw used by
the identifier generator: the computed number is a 9 digit number. -/
def drawsOk (draws : List Nat) : Bool :=
  draws.all (fun n => decide (100000000 ≤ n) && decide (n < 1000000000))

/-- wfEvent collects the environment guarantees under which an event reaches
its handler: events come from connected sockets, grace tasks fire only when
scheduled, request identifiers from uuid generation are fresh, random draws
are 9 digit numbers, and the register retry loop terminates. -/
def wfEvent (w : World) : Event → Bool
  | Event.connect sid => !(mapHas w.socks sid)
  | Event.register sid pref draws =>
    (match mapGet w.socks sid with
     | some cid? => (register w.st ⟨sid, cid?⟩ pref draws).isSome
     | none => false) && drawsOk draws
  | Event.requestConnection sid _ _ _ fresh =>
      mapHas w.socks sid && !(mapHas w.st.pending fresh)
  | Event.connectionResponse sid _ _ => mapHas w.socks sid
  | Event.endSession sid _ => mapHas w.socks sid
  | Event.relay sid _ _ => mapHas w.socks sid
  | Event.disconnect sid => mapHas w.socks sid
  | Event.graceFire did csid => w.tasks.contains (did, csid)

/-- registeredSender holds when the given socket is connected and carries a
connectionId. -/
def registeredSender (w : World) (sid : String) : Bool :=
  match mapGet w.socks sid with
  | some (some _) => true
  | _ => false

/-- regWfEvent strengthens wfEvent by demanding that connection requests are
issued by sockets that completed a registration. -/
def regWfEvent (w : World) (e : Event) : Bool :=
  wfEvent w e &&
  (match e with
   | Event.requestConnection sid _ _ _ _ => registeredSender w sid
   | _ => true)

/-- world0 is the server state right after startup. -/
def world0 : World := ⟨⟨[], []⟩, [], []⟩

/-- Reach lists the states the server can be in after a sequence of
well-formed events. -/
inductive Reach : List Event → World → Prop where
  | init : Reach [] world0
  | next {tr : List Event} {w : World} {e : Event} :
      Reach tr w → wfEvent w e = true → Reach (tr ++ [e]) (stepW w e)

/-- RegReach restricts Reach to runs in which every connection request is
issued by a registered socket. -/
inductive RegReach : List Event → World → Prop where
  | init : RegReach [] world0
  | next {tr : List Event} {w : World} {e : Event} :
      RegReach tr w → regWfEvent w e = true → RegReach (tr ++ [e]) (stepW w e)

/-- runEvents folds a list of events through stepW. -/
def runEvents (w : World) (evs : List Event) : World := evs.foldl stepW w

/-- wfRun checks that every event of a run is well formed in the state it
reaches. -/
def wfRun : World → List Event → Bool
  | _, [] => true
  | w, e :: rest => wfEvent w e && wfRun (stepW w e) rest

/-- regWfRun checks the strengthened well-formedness along a run. -/
def regWfRun : World → List Event → Bool
  | _, [] => true
  | w, e :: rest => regWfEvent w e && regWfRun (stepW w e) rest

/-! Association map lemmas. -/

theorem mapGet_mem {α : Type} {m : List (String × α)} {k : String} {v : α}
    (h : mapGet m k = some v) : (k, v) ∈ m := by
  induction m with
  | nil => simp [mapGet] at h
  | cons kv rest ih =>
    obtain ⟨k1, v1⟩ := kv
    by_cases hk : k1 = k
    · subst hk
      simp [mapGet] at h
      simp [h]
    · simp [mapGet, hk] at h
      exact List.mem_cons_of_mem _ (ih h)

theorem mapGet_mapSet_self {α : Type} (m : List (String × α)) (k : String) (v : α) :
    mapGet (mapSet m k v) k = some v := by
  induction m with
  | nil => simp [mapSet, mapGet]
  | cons kv rest ih =>
    obtain ⟨k1, v1⟩ := kv
    by_cases hk : k1 = k
    · simp [mapSet, hk, mapGet]
    · simp [mapSet, hk, mapGet, ih]

theorem mapGet_mapSet_ne {α : Type} (m : List (String × α)) {k k1 : String} (v : α)
    (h : k1 ≠ k) : mapGet (mapSet m k v) k1 = mapGet m k1 := by
  induction m with
  | nil => simp [mapSet, mapGet, Ne.symm h]
  | cons kv rest ih =>
    obtain ⟨k2, v2⟩ := kv
    by_cases hk : k2 = k
    · subst hk
      simp [mapSet, mapGet, Ne.symm h]
    · by_cases hk1 : k2 = k1
      · subst hk1
        simp [mapSet, hk, mapGet]
      · simp [mapSet, hk, mapGet, hk1, ih]

theorem mem_mapSet {α : Type} {m : List (String × α)} {k : String} {v : α}
    {kv : String × α} (h : kv ∈ mapSet m k v) : kv = (k, v) ∨ kv ∈ m := by
  induction m with
  | nil => simpa [mapSet] using h
  | cons kv1 rest ih =>
    obtain ⟨k1, v1⟩ := kv1
    by_cases hk : k1 = k
    · simp [mapSet, hk] at h
      rcases h with h | h
      · exact Or.inl h
      · exact Or.inr (List.mem_cons_of_mem _ h)
    · simp [mapSet, hk] at h
      rcases h with h | h
      · exact Or.inr (by simp [h])
      · rcases ih h with h1 | h1
        · exact Or.inl h1
        · exact Or.inr (List.mem_cons_of_mem _ h1)

theorem mapHas_false_get {α : Type} {m : List (String × α)} {k : String}
    (h : mapHas m k = false) : mapGet m k = none := by
  unfold mapHas at h
  rcases hg : mapGet m k with _ | v
  · rfl
  · rw [hg] at h
    simp at h

theorem mapSet_eq_append {α : Type} {m : List (String × α)} {k : String}
    (h : mapHas m k = false) (v : α) : mapSet m k v = m ++ [(k, v)] := by
  have hg := mapHas_false_get h
  clear h
  induction m with
  | nil => simp [mapSet]
  | cons kv1 rest ih =>
    obtain ⟨k1, v1⟩ := kv1
    by_cases hk : k1 = k
    · simp [mapGet, hk] at hg
    · simp [mapGet, hk] at hg
      simp [mapSet, hk, ih hg]

theorem mapGet_eq_none_iff {α : Type} {m : List (String × α)} {k : String} :
    mapGet m k = none ↔ k ∉ m.map Prod.fst := by
  induction m with
  | nil => simp [mapGet]
  | cons kv rest ih =>
    obtain ⟨k1, v1⟩ := kv
    by_cases hk : k1 = k
    · simp [mapGet, hk]
    · simp [mapGet, hk, ih, Ne.symm hk]

theorem map_fst_mapSet_of_has {α : Type} {m : List (String × α)} {k : String}
    (h : mapHas m k = true) (v : α) : (mapSet m k v).map Prod.fst = m.map Prod.fst := by
  unfold mapHas at h
  induction m with
  | nil => simp [mapGet] at h
  | cons kv1 rest ih =>
    obtain ⟨k1, v1⟩ := kv1
    by_cases hk : k1 = k
    · simp [mapSet, hk]
    · simp [mapGet, hk] at h
      simp [mapSet, hk, ih h]

theorem mapDelete_eq_filter {α : Type} (m : List (String × α)) (k : String) :
    mapDelete m k = m.filter (fun kv => kv.1 != k) := by
  induction m with
  | nil => simp [mapDelete]
  | cons kv rest ih =>
    obtain ⟨k1, v1⟩ := kv
    by_cases hk : k1 = k
    · simp [mapDelete, hk, List.filter_cons, ih]
    · simp [mapDelete, hk, List.filter_cons, ih, bne_iff_ne]

theorem mem_mapDelete {α : Type} {m : List (String × α)} {k : String}
    {kv : String × α} (h : kv ∈ mapDelete m k) : kv ∈ m := by
  rw [mapDelete_eq_filter] at h
  exact List.mem_of_mem_filter h

theorem mapGet_mapDelete_self {α : Type} (m : List (String × α)) (k : String) :
    mapGet (mapDelete m k) k = none := by
  induction m with
  | nil => simp [mapDelete, mapGet]
  | cons kv rest ih =>
    obtain ⟨k1, v1⟩ := kv
    by_cases hk : k1 = k
    · simp [mapDelete, hk, ih]
    · simp [mapDelete, hk, mapGet, ih]

theorem mapGet_mapDelete_ne {α : Type} (m : List (String × α)) {k k1 : String}
    (h : k1 ≠ k) : mapGet (mapDelete m k) k1 = mapGet m k1 := by
  induction m with
  | nil => simp [mapDelete]
  | cons kv rest ih =>
    obtain ⟨k2, v2⟩ := kv
    by_cases hk : k2 = k
    · subst hk
      simp [mapDelete, mapGet, Ne.symm h, ih]
    · simp [mapDelete, hk, mapGet, ih]

theorem map_fst_mapDelete_sublist {α : Type} (m : List (String × α)) (k : String) :
    ((mapDelete m k).map Prod.fst).Sublist (m.map Prod.fst) := by
  rw [mapDelete_eq_filter]
  exact List.Sublist.map Prod.fst (List.filter_sublist m)

theorem updatePeer_get_self {ps : List (String × Peer)} {k : String} {p : Peer}
    (f : Peer → Peer) (h : mapGet ps k = some p) :
    mapGet (updatePeer ps k f) k = some (f p) := by
  unfold updatePeer
  rw [h]
  exact mapGet_mapSet_self ps k (f p)

theorem updatePeer_get_ne (ps : List (String × Peer)) (k : String) (f : Peer → Peer)
    {k1 : String} (h : k1 ≠ k) : mapGet (updatePeer ps k f) k1 = mapGet ps k1 := by
  unfold updatePeer
  rcases hg : mapGet ps k with _ | p
  · rfl
  · exact mapGet_mapSet_ne ps (f p) h

theorem mem_updatePeer {ps : List (String × Peer)} {k : String} {f : Peer → Peer}
    {kv : String × Peer} (h : kv ∈ updatePeer ps k f) :
    (∃ p, mapGet ps k = some p ∧ kv = (k, f p)) ∨ kv ∈ ps := by
  unfold updatePeer at h
  rcases hg : mapGet ps k with _ | p
  · rw [hg] at h
    exact Or.inr h
  · rw [hg] at h
    rcases mem_mapSet h with h1 | h1
    · exact Or.inl ⟨p, rfl, h1⟩
    · exact Or.inr h1

theorem map_fst_updatePeer (ps : List (String × Peer)) (k : String) (f : Peer → Peer) :
    (updatePeer ps k f).map Prod.fst = ps.map Prod.fst := by
  unfold updatePeer
  rcases hg : mapGet ps k with _ | p
  · rfl
  · exact map_fst_mapSet_of_has (by simp [mapHas, hg]) (f p)

/-! Reachability helpers: a run whose events all pass the well-formedness
check yields a Reach derivation for its fold. -/

theorem reach_append {tr : List Event} {w : World} {evs : List Event}
    (h : Reach tr w) (hwf : wfRun w evs = true) : Reach (tr ++ evs) (runEvents w evs) := by
  induction evs generalizing tr w with
  | nil => simpa [runEvents] using h
  | cons e rest ih =>
    simp only [wfRun, Bool.and_eq_true] at hwf
    have h1 : Reach (tr ++ [e]) (stepW w e) := Reach.next h hwf.1
    have h2 := ih h1 hwf.2
    simpa [runEvents, List.append_assoc] using h2

theorem reach_run {evs : List Event} (h : wfRun world0 evs = true) :
    Reach evs (runEvents world0 evs) := by
  simpa using reach_append Reach.init h

theorem regReach_append {tr : List Event} {w : World} {evs : List Event}
    (h : RegReach tr w) (hwf : regWfRun w evs = true) :
    RegReach (tr ++ evs) (runEvents w evs) := by
  induction evs generalizing tr w with
  | nil => simpa [runEvents] using h
  | cons e rest ih =>
    simp only [regWfRun, Bool.and_eq_true] at hwf
    have h1 : RegReach (tr ++ [e]) (stepW w e) := RegReach.next h hwf.1
    have h2 := ih h1 hwf.2
    simpa [runEvents, List.append_assoc] using h2

theorem regReach_run {evs : List Event} (h : regWfRun world0 evs = true) :
    RegReach evs (runEvents world0 evs) := by
  simpa using regReach_append RegReach.init h

/-! String and digit lemmas. -/

/-- isIdFormatL recognizes character lists of the shape three digits, dash,
three digits, dash, three digits. -/
def isIdFormatL : List Char → Bool
  | [a, b, c, h1, d, e, f, h2, g, h, i] =>
      (h1 == '-') && (h2 == '-') && ([a, b, c, d, e, f, g, h, i].all Char.isDigit)
  | _ => false

/-- isIdFormat recognizes identifier strings of the shape NNN-NNN-NNN with
digit groups. -/
def isIdFormat (k : String) : Bool := isIdFormatL k.data

/-- isCanonicalKey recognizes the keys the registry actually stores: nine
non-dash characters formatted as three dash-joined groups, so that the key is
recovered from its dash-stripped form by formatting. -/
def isCanonicalKey (k : String) : Bool :=
  ((stripDashes k).length == 9) && (formatId (stripDashes k) == k)

theorem data_append (a b : String) : (a ++ b).data = a.data ++ b.data := by
  cases a
  cases b
  rfl

theorem mk_data (s : String) : String.mk s.data = s := by
  cases s
  rfl

theorem stripDashes_data (s : String) : (stripDashes s).data = stripD s.data := rfl

theorem string_length_data (s : String) : s.length = s.data.length := rfl

theorem nineChars (l : List Char) (h : l.length = 9) :
    ∃ a b c d e f g h1 i, l = [a, b, c, d, e, f, g, h1, i] := by
  rcases l with _ | ⟨a, _ | ⟨b, _ | ⟨c, _ | ⟨d, _ | ⟨e, _ | ⟨f, _ | ⟨g, _ | ⟨h1, _ | ⟨i, _ | ⟨j, l⟩⟩⟩⟩⟩⟩⟩⟩⟩⟩
  all_goals simp only [List.length_nil, List.length_cons] at h
  all_goals try omega
  exact ⟨a, b, c, d, e, f, g, h1, i, rfl⟩

theorem formatId_nine (a b c d e f g h1 i : Char) :
    (formatId (String.mk [a, b, c, d, e, f, g, h1, i])).data
      = [a, b, c, '-', d, e, f, '-', g, h1, i] := by
  rfl

theorem mem_stripD_ne {l : List Char} {c : Char} (h : c ∈ stripD l) : c ≠ '-' := by
  unfold stripD at h
  have h2 := List.of_mem_filter h
  simpa [bne_iff_ne] using h2

theorem stripD_formatId_data {l : List Char} (hlen : l.length = 9)
    (hnd : ∀ c ∈ l, c ≠ '-') : stripD ((formatId (String.mk l)).data) = l := by
  obtain ⟨a, b, c, d, e, f, g, h1, i, rfl⟩ := nineChars l hlen
  have ha : a ≠ '-' := hnd a (by simp)
  have hb : b ≠ '-' := hnd b (by simp)
  have hc : c ≠ '-' := hnd c (by simp)
  have hd : d ≠ '-' := hnd d (by simp)
  have he : e ≠ '-' := hnd e (by simp)
  have hf : f ≠ '-' := hnd f (by simp)
  have hg : g ≠ '-' := hnd g (by simp)
  have hh1 : h1 ≠ '-' := hnd h1 (by simp)
  have hi : i ≠ '-' := hnd i (by simp)
  rw [formatId_nine]
  simp [stripD, List.filter_cons, bne_iff_ne, ha, hb, hc, hd, he, hf, hg, hh1, hi]

theorem stripDashes_formatId {l : List Char} (hlen : l.length = 9)
    (hnd : ∀ c ∈ l, c ≠ '-') : stripDashes (formatId (String.mk l)) = String.mk l := by
  unfold stripDashes
  rw [stripD_formatId_data hlen hnd]

theorem isCanonicalKey_formatId {l : List Char} (hlen : l.length = 9)
    (hnd : ∀ c ∈ l, c ≠ '-') : isCanonicalKey (formatId (String.mk l)) = true := by
  have hs := stripDashes_formatId hlen hnd
  unfold isCanonicalKey
  rw [hs]
  simp [string_length_data, hlen]

theorem canonical_inj {k1 k2 : String} (h1 : isCanonicalKey k1 = true)
    (h2 : isCanonicalKey k2 = true) (h : stripDashes k1 = stripDashes k2) : k1 = k2 := by
  unfold isCanonicalKey at h1 h2
  simp only [Bool.and_eq_true, beq_iff_eq] at h1 h2
  calc k1 = formatId (stripDashes k1) := h1.2.symm
    _ = formatId (stripDashes k2) := by rw [h]
    _ = k2 := h2.2

theorem isIdFormat_formatId {l : List Char} (hlen : l.length = 9)
    (hdig : ∀ c ∈ l, c.isDigit = true) : isIdFormat (formatId (String.mk l)) = true := by
  obtain ⟨a, b, c, d, e, f, g, h1, i, rfl⟩ := nineChars l hlen
  have ha : a.isDigit = true := hdig a (by simp)
  have hb : b.isDigit = true := hdig b (by simp)
  have hc : c.isDigit = true := hdig c (by simp)
  have hd : d.isDigit = true := hdig d (by simp)
  have he : e.isDigit = true := hdig e (by simp)
  have hf : f.isDigit = true := hdig f (by simp)
  have hg : g.isDigit = true := hdig g (by simp)
  have hh1 : h1.isDigit = true := hdig h1 (by simp)
  have hi : i.isDigit = true := hdig i (by simp)
  unfold isIdFormat
  rw [formatId_nine]
  simp [isIdFormatL, ha, hb, hc, hd, he, hf, hg, hh1, hi]

theorem natToDigits_zero (fuel : Nat) : natToDigits fuel 0 = [] := by
  cases fuel <;> rfl

theorem digitChar_isDigit {d : Nat} (h : d < 10) : (digitChar d).isDigit = true := by
  interval_cases d <;> decide

theorem digitChar_ne_dash {d : Nat} (h : d < 10) : digitChar d ≠ '-' := by
  interval_cases d <;> decide

theorem natToDigits_mem {fuel n : Nat} {c : Char} (h : c ∈ natToDigits fuel n) :
    ∃ d, d < 10 ∧ c = digitChar d := by
  induction fuel generalizing n with
  | zero => simp [natToDigits] at h
  | succ fuel ih =>
    by_cases hn : n = 0
    · subst hn
      simp [natToDigits] at h
    · obtain ⟨m, rfl⟩ : ∃ m, n = m + 1 := ⟨n - 1, by omega⟩
      simp only [natToDigits, List.mem_append, List.mem_singleton] at h
      rcases h with h | h
      · exact ih h
      · exact ⟨(m + 1) % 10, Nat.mod_lt _ (by norm_num), h⟩

theorem natToDigits_len : ∀ (fuel j n : Nat), n < 10 ^ (j + 1) → 10 ^ j ≤ n →
    j + 1 ≤ fuel → (natToDigits fuel n).length = j + 1 := by
  intro fuel
  induction fuel with
  | zero => intro j n _ _ h3; omega
  | succ fuel ih =>
    intro j n h1 h2 h3
    have hn : n ≠ 0 := by
      have : (1 : Nat) ≤ 10 ^ j := Nat.one_le_pow _ _ (by norm_num)
      omega
    obtain ⟨m, rfl⟩ : ∃ m, n = m + 1 := ⟨n - 1, by omega⟩
    simp only [natToDigits, List.length_append, List.length_singleton]
    rcases j with _ | j
    · have hz : (m + 1) / 10 = 0 := Nat.div_eq_of_lt (by simpa using h1)
      rw [hz, natToDigits_zero]
      simp
    · have hlt : (m + 1) / 10 < 10 ^ (j + 1) := by
        rw [Nat.div_lt_iff_lt_mul (by norm_num : (0 : Nat) < 10)]
        calc m + 1 < 10 ^ (j + 1 + 1) := h1
          _ = 10 ^ (j + 1) * 10 := by ring
      have hge : 10 ^ j ≤ (m + 1) / 10 := by
        rw [Nat.le_div_iff_mul_le (by norm_num : (0 : Nat) < 10)]
        calc 10 ^ j * 10 = 10 ^ (j + 1) := by ring
          _ ≤ m + 1 := h2
      rw [ih j ((m + 1) / 10) hlt hge (by omega)]

theorem natToString_data {n : Nat} (h : n ≠ 0) :
    (natToString n).data = natToDigits (n + 1) n := by
  simp [natToString, h]

theorem natToString_len9 {n : Nat} (h1 : 100000000 ≤ n) (h2 : n < 1000000000) :
    (natToString n).data.length = 9 := by
  rw [natToString_data (by omega)]
  have e1 : (10 : Nat) ^ (8 + 1) = 1000000000 := by norm_num
  have e2 : (10 : Nat) ^ 8 = 100000000 := by norm_num
  exact natToDigits_len (n + 1) 8 n (by rw [e1]; exact h2) (by rw [e2]; exact h1) (by omega)

theorem natToString_chars {n : Nat} (h : n ≠ 0) :
    ∀ c ∈ (natToString n).data, c.isDigit = true ∧ c ≠ '-' := by
  rw [natToString_data h]
  intro c hc
  obtain ⟨d, hd, rfl⟩ := natToDigits_mem hc
  exact ⟨digitChar_isDigit hd, digitChar_ne_dash hd⟩

theorem generateConnectionId_isIdFormat {n : Nat} (h1 : 100000000 ≤ n)
    (h2 : n < 1000000000) : isIdFormat (generateConnectionId n) = true := by
  unfold generateConnectionId
  have hmk : String.mk (natToString n).data = natToString n := mk_data _
  rw [← hmk]
  exact isIdFormat_formatId (natToString_len9 h1 h2)
    (fun c hc => ((natToString_chars (by omega) c hc)).1)

theorem generateConnectionId_canonical {n : Nat} (h1 : 100000000 ≤ n)
    (h2 : n < 1000000000) : isCanonicalKey (generateConnectionId n) = true := by
  unfold generateConnectionId
  have hmk : String.mk (natToString n).data = natToString n := mk_data _
  rw [← hmk]
  exact isCanonicalKey_formatId (natToString_len9 h1 h2)
    (fun c hc => ((natToString_chars (by omega) c hc)).2)

theorem preferred_canonical {s : String} (h9 : (stripDashes s).length = 9) :
    isCanonicalKey (formatId (stripDashes s)) = true := by
  have hmk : String.mk (stripDashes s).data = stripDashes s := mk_data _
  rw [← hmk]
  exact isCanonicalKey_formatId h9 (fun _ hc => mem_stripD_ne hc)

/-! Lookup lemmas. -/

theorem findEntryByConnectionId_some {ps : List (String × Peer)} {q k : String} {p : Peer}
    (h : findEntryByConnectionId ps q = some (k, p)) :
    (k, p) ∈ ps ∧ stripDashes k = stripDashes q := by
  refine ⟨List.mem_of_find?_eq_some h, ?_⟩
  have h2 := List.find?_some h
  simpa [beq_iff_eq] using h2

theorem findEntryByConnectionId_none {ps : List (String × Peer)} {q : String} :
    findEntryByConnectionId ps q = none ↔ ∀ kv ∈ ps, stripDashes kv.1 ≠ stripDashes q := by
  simp [findEntryByConnectionId, List.find?_eq_none]

theorem findEntry_congr (ps : List (String × Peer)) {q1 q2 : String}
    (h : stripDashes q1 = stripDashes q2) :
    findEntryByConnectionId ps q1 = findEntryByConnectionId ps q2 := by
  simp only [findEntryByConnectionId, h]

theorem findBySocketId_socketId {ps : List (String × Peer)} {s : String} {p : Peer}
    (h : findBySocketId ps s = some p) : p.socketId = s := by
  have h2 := List.find?_some h
  simpa [beq_iff_eq] using h2

theorem findBySocketId_isSome {ps : List (String × Peer)} {s : String} :
    (findBySocketId ps s).isSome = true ↔ ∃ kv ∈ ps, kv.2.socketId = s := by
  simp only [findBySocketId, List.find?_isSome, List.mem_map, beq_iff_eq]
  constructor
  · rintro ⟨p, ⟨kv, hkv, rfl⟩, hs⟩
    exact ⟨kv, hkv, hs⟩
  · rintro ⟨kv, hkv, hs⟩
    exact ⟨kv.2, ⟨kv, hkv, rfl⟩, hs⟩

/-! Register lemmas. -/

theorem genLoop_spec {ps : List (String × Peer)} {draws : List Nat} {cid : String}
    (h : genLoop ps draws = some cid) :
    mapHas ps cid = false ∧ ∃ n ∈ draws, cid = generateConnectionId n := by
  induction draws with
  | nil => simp [genLoop] at h
  | cons n rest ih =>
    by_cases hh : mapHas ps (generateConnectionId n) = true
    · simp [genLoop, hh] at h
      obtain ⟨h1, n1, h2, h3⟩ := ih h
      exact ⟨h1, n1, List.mem_cons_of_mem _ h2, h3⟩
    · simp [genLoop, hh] at h
      rcases h with rfl
      exact ⟨by simpa using hh, n, List.mem_cons_self _ _, rfl⟩

theorem genLoop_first {ps : List (String × Peer)} {draws : List Nat} {cid : String}
    (h : genLoop ps draws = some cid) :
    ∃ pre n post, draws = pre ++ n :: post ∧ cid = generateConnectionId n ∧
      mapHas ps (generateConnectionId n) = false ∧
      ∀ m ∈ pre, mapHas ps (generateConnectionId m) = true := by
  induction draws with
  | nil => simp [genLoop] at h
  | cons n rest ih =>
    by_cases hh : mapHas ps (generateConnectionId n) = true
    · simp [genLoop, hh] at h
      obtain ⟨pre, n1, post, h1, h2, h3, h4⟩ := ih h
      refine ⟨n :: pre, n1, post, by simp [h1], h2, h3, ?_⟩
      intro m hm
      rcases List.mem_cons.mp hm with rfl | hm
      · exact hh
      · exact h4 m hm
    · simp [genLoop, hh] at h
      rcases h with rfl
      exact ⟨[], n, rest, rfl, rfl, by simpa using hh, by simp⟩

theorem preferredCandidate_some {ps : List (String × Peer)} {pref : Option String}
    {c : String} (h : preferredCandidate ps pref = some c) :
    ∃ p, pref = some p ∧ p ≠ "" ∧ (stripDashes p).length = 9 ∧
      c = formatId (stripDashes p) ∧ mapHas ps c = false := by
  rcases pref with _ | p
  · simp [preferredCandidate] at h
  · by_cases he : p = ""
    · simp [preferredCandidate, he] at h
    · by_cases hc : (stripDashes p).length = 9 ∧ mapHas ps (formatId (stripDashes p)) = false
      · simp [preferredCandidate, he, hc] at h
        exact ⟨p, rfl, he, hc.1, h.symm, h ▸ hc.2⟩
      · simp [preferredCandidate, he, hc] at h

theorem preferredCandidate_adopt {ps : List (String × Peer)} {p : String}
    (hne : p ≠ "") (h9 : (stripDashes p).length = 9)
    (hfree : mapHas ps (formatId (stripDashes p)) = false) :
    preferredCandidate ps (some p) = some (formatId (stripDashes p)) := by
  simp [preferredCandidate, hne, h9, hfree]

theorem registerFresh_some {st : ServerState} {sock : Socket} {pref : Option String}
    {draws : List Nat} {st1 : ServerState} {sock1 : Socket} {cid : String}
    (h : registerFresh st sock pref draws = some (st1, sock1, cid)) :
    mapHas st.peers cid = false ∧
    st1.peers = mapSet st.peers cid (newPeer sock.sid) ∧ st1.pending = st.pending ∧
    sock1 = { sock with connectionId := some cid } ∧
    (preferredCandidate st.peers pref = some cid ∨
      (preferredCandidate st.peers pref = none ∧ genLoop st.peers draws = some cid)) := by
  unfold registerFresh at h
  obtain hpc | ⟨c, hpc⟩ := Option.eq_none_or_eq_some (preferredCandidate st.peers pref)
  · rw [hpc] at h
    obtain hg | ⟨c1, hg⟩ := Option.eq_none_or_eq_some (genLoop st.peers draws)
    · rw [hg] at h
      simp at h
    · rw [hg] at h
      simp only [Option.some.injEq, Prod.mk.injEq] at h
      obtain ⟨h1, h2, h3⟩ := h
      subst h3
      obtain ⟨hfree, _⟩ := genLoop_spec hg
      exact ⟨hfree, by rw [← h1], by rw [← h1], h2.symm, Or.inr ⟨hpc, hg⟩⟩
  · rw [hpc] at h
    simp only [Option.some.injEq, Prod.mk.injEq] at h
    obtain ⟨h1, h2, h3⟩ := h
    subst h3
    obtain ⟨p, _, _, _, _, hfree⟩ := preferredCandidate_some hpc
    exact ⟨hfree, by rw [← h1], by rw [← h1], h2.symm, Or.inl hpc⟩

theorem register_some {st : ServerState} {sock : Socket} {pref : Option String}
    {draws : List Nat} {st1 : ServerState} {sock1 : Socket} {cid : String}
    (h : register st sock pref draws = some (st1, sock1, cid)) :
    (st1 = st ∧ sock1 = sock ∧ sock.connectionId = some cid ∧ mapHas st.peers cid = true) ∨
    (mapHas st.peers cid = false ∧
     st1.peers = mapSet st.peers cid (newPeer sock.sid) ∧ st1.pending = st.pending ∧
     sock1 = { sock with connectionId := some cid } ∧
     (preferredCandidate st.peers pref = some cid ∨
       (preferredCandidate st.peers pref = none ∧ genLoop st.peers draws = some cid))) := by
  unfold register at h
  obtain hc | ⟨c, hc⟩ := Option.eq_none_or_eq_some sock.connectionId
  · rw [hc] at h
    exact Or.inr (registerFresh_some h)
  · rw [hc] at h
    by_cases hhas : mapHas st.peers c = true
    · simp only [hhas, if_true, Option.some.injEq, Prod.mk.injEq] at h
      obtain ⟨h1, h2, h3⟩ := h
      subst h3
      exact Or.inl ⟨h1.symm, h2.symm, hc, hhas⟩
    · simp only [hhas, if_false] at h
      exact Or.inr (registerFresh_some h)

theorem register_new_key_canonical {st : ServerState}
    {pref : Option String} {draws : List Nat} {cid : String}
    (hd : drawsOk draws = true)
    (h : preferredCandidate st.peers pref = some cid ∨
      (preferredCandidate st.peers pref = none ∧ genLoop st.peers draws = some cid)) :
    isCanonicalKey cid = true := by
  rcases h with h | ⟨_, h⟩
  · obtain ⟨p, _, _, h9, rfl, _⟩ := preferredCandidate_some h
    exact preferred_canonical h9
  · obtain ⟨_, n, hn, rfl⟩ := genLoop_spec h
    have := List.all_eq_true.mp hd n hn
    simp only [Bool.and_eq_true, decide_eq_true_eq] at this
    exact generateConnectionId_canonical this.1 this.2

/-! Grace cleanup lemmas. -/

theorem socketIds_mapSet_of_findEntry {ps : List (String × Peer)} {q k : String}
    {p v : Peer} (hf : findEntryByConnectionId ps q = some (k, p))
    (hs : v.socketId = p.socketId) :
    (mapSet ps k v).map (fun kv => kv.2.socketId) = ps.map (fun kv => kv.2.socketId) := by
  induction ps with
  | nil => simp [findEntryByConnectionId] at hf
  | cons kv rest ih =>
    obtain ⟨k1, p1⟩ := kv
    by_cases hm : stripDashes k1 = stripDashes q
    · have : findEntryByConnectionId ((k1, p1) :: rest) q = some (k1, p1) := by
        simp [findEntryByConnectionId, List.find?_cons, hm]
      rw [this] at hf
      simp only [Option.some.injEq, Prod.mk.injEq] at hf
      obtain ⟨rfl, rfl⟩ := hf
      simp [mapSet, hs]
    · have hstep : findEntryByConnectionId ((k1, p1) :: rest) q
          = findEntryByConnectionId rest q := by
        simp [findEntryByConnectionId, List.find?_cons, hm]
      rw [hstep] at hf
      have hk1 : k1 ≠ k := by
        intro hk
        subst hk
        exact hm (findEntryByConnectionId_some hf).2
      simp [mapSet, hk1, ih hf]

theorem resetConnectedPeer_socketIds (ps : List (String × Peer)) (did : String)
    (ct? : Option String) :
    ((resetConnectedPeer ps did ct?).1).map (fun kv => kv.2.socketId)
      = ps.map (fun kv => kv.2.socketId) := by
  rcases ct? with _ | ct
  · rfl
  · obtain hf | ⟨⟨k, cp⟩, hf⟩ := Option.eq_none_or_eq_some (findEntryByConnectionId ps ct)
    · simp [resetConnectedPeer, hf]
    · simp only [resetConnectedPeer, hf]
      exact socketIds_mapSet_of_findEntry hf rfl

theorem reapPending_mem {did : String} {ps : List (String × Peer)}
    {pend : List (String × PendingRequest)} {kv : String × PendingRequest}
    (h : kv ∈ (reapPending did ps pend).1) :
    kv ∈ pend ∧ kv.2.hostConnectionId ≠ did ∧ kv.2.viewerConnectionId ≠ some did := by
  induction pend with
  | nil => simp [reapPending] at h
  | cons e rest ih =>
    obtain ⟨rid, r⟩ := e
    by_cases hh : r.hostConnectionId = did
    · rcases hf : findBySocketId ps r.viewerSocketId with _ | vp
      · simp only [reapPending, hh, if_true, hf] at h
        obtain ⟨h1, h2, h3⟩ := ih h
        exact ⟨List.mem_cons_of_mem _ h1, h2, h3⟩
      · simp only [reapPending, hh, if_true, hf] at h
        obtain ⟨h1, h2, h3⟩ := ih h
        exact ⟨List.mem_cons_of_mem _ h1, h2, h3⟩
    · by_cases hv : r.viewerConnectionId = some did
      · simp only [reapPending, hh, if_false, hv, if_true] at h
        obtain ⟨h1, h2, h3⟩ := ih h
        exact ⟨List.mem_cons_of_mem _ h1, h2, h3⟩
      · simp only [reapPending, hh, if_false, hv] at h
        rcases List.mem_cons.mp h with rfl | h
        · exact ⟨List.mem_cons_self _ _, hh, hv⟩
        · obtain ⟨h1, h2, h3⟩ := ih h
          exact ⟨List.mem_cons_of_mem _ h1, h2, h3⟩

theorem reapPending_emits {did : String} {ps : List (String × Peer)}
    {pend : List (String × PendingRequest)} {m : Emit}
    (h : m ∈ (reapPending did ps pend).2) :
    ∃ s, m = Emit.connectionRejectedDisconnect s := by
  induction pend with
  | nil => simp [reapPending] at h
  | cons e rest ih =>
    obtain ⟨rid, r⟩ := e
    by_cases hh : r.hostConnectionId = did
    · rcases hf : findBySocketId ps r.viewerSocketId with _ | vp
      · simp only [reapPending, hh, if_true, hf] at h
        exact ih h
      · simp only [reapPending, hh, if_true, hf] at h
        rcases List.mem_cons.mp h with rfl | h
        · exact ⟨vp.socketId, rfl⟩
        · exact ih h
    · by_cases hv : r.viewerConnectionId = some did
      · simp only [reapPending, hh, if_false, hv, if_true] at h
        exact ih h
      · simp only [reapPending, hh, if_false, hv] at h
        exact ih h

theorem reapPending_notify {did : String} {ps : List (String × Peer)}
    {pend : List (String × PendingRequest)} {rid : String} {r : PendingRequest} {vp : Peer}
    (hm : (rid, r) ∈ pend) (hh : r.hostConnectionId = did)
    (hf : findBySocketId ps r.viewerSocketId = some vp) :
    Emit.connectionRejectedDisconnect vp.socketId ∈ (reapPending did ps pend).2 := by
  induction pend with
  | nil => simp at hm
  | cons e rest ih =>
    obtain ⟨rid1, r1⟩ := e
    rcases List.mem_cons.mp hm with he | hm1
    · obtain ⟨h1, h2⟩ := Prod.mk.injEq .. ▸ he
      subst h2
      simp only [reapPending, hh, if_true, hf]
      exact List.mem_cons_self _ _
    · have htail := ih hm1
      by_cases hh1 : r1.hostConnectionId = did
      · rcases hf1 : findBySocketId ps r1.viewerSocketId with _ | vp1
        · simpa only [reapPending, hh1, if_true, hf1] using htail
        · simp only [reapPending, hh1, if_true, hf1]
          exact List.mem_cons_of_mem _ htail
      · by_cases hv1 : r1.viewerConnectionId = some did
        · simpa only [reapPending, hh1, if_false, hv1, if_true] using htail
        · simpa only [reapPending, hh1, if_false, hv1] using htail

/-! Invariants. -/

theorem mapHas_of_mem {α : Type} {m : List (String × α)} {k : String} {v : α}
    (h : (k, v) ∈ m) : mapHas m k = true := by
  by_contra hc
  have h1 : mapGet m k = none := mapHas_false_get (by simpa using hc)
  exact (mapGet_eq_none_iff.mp h1) (List.mem_map.mpr ⟨(k, v), h, rfl⟩)

/-- peerOk is the per-record half of the registry invariant: busy exactly
when paired. -/
def peerOk (p : Peer) : Prop := p.status = "busy" ↔ p.connectedTo ≠ none

/-- statusInv states peerOk for every stored record. -/
def statusInv (st : ServerState) : Prop := ∀ kv ∈ st.peers, peerOk kv.2

/-- pendingInv states that every stored pending request remembers the
connection identifier its viewer had at request time. -/
def pendingInv (st : ServerState) : Prop :=
  ∀ kv ∈ st.pending, kv.2.viewerConnectionId ≠ none

/-- keysInv states that registry keys are pairwise distinct and canonical. -/
def keysInv (st : ServerState) : Prop :=
  (st.peers.map Prod.fst).Nodup ∧
  ∀ k ∈ st.peers.map Prod.fst, isCanonicalKey k = true

theorem peerOk_newPeer (sid : String) : peerOk (newPeer sid) := by
  simp [peerOk, newPeer]

theorem peerOk_setBusy (x : String) (p : Peer) : peerOk (setBusy (some x) p) := by
  simp [peerOk, setBusy]

theorem peerOk_setAvailable (p : Peer) : peerOk (setAvailable p) := by
  simp [peerOk, setAvailable]

theorem requestConnection_peers (st : ServerState) (sock : Socket) (targetId : String)
    (vn pw : Option String) (freshId : String) :
    (requestConnection st sock targetId vn pw freshId).1.peers = st.peers := by
  unfold requestConnection
  obtain hf | ⟨⟨k, tp⟩, hf⟩ := Option.eq_none_or_eq_some (findEntryByConnectionId st.peers targetId)
  · rw [hf]
  · rw [hf]
    by_cases hb : tp.status = "busy"
    · simp [hb]
    · simp [hb]

theorem requestConnection_pending_mem {st : ServerState} {sock : Socket}
    {targetId : String} {vn pw : Option String} {freshId : String}
    {kv : String × PendingRequest}
    (h : kv ∈ (requestConnection st sock targetId vn pw freshId).1.pending) :
    kv ∈ st.pending ∨ kv.2.viewerConnectionId = sock.connectionId := by
  unfold requestConnection at h
  obtain hf | ⟨⟨k, tp⟩, hf⟩ := Option.eq_none_or_eq_some (findEntryByConnectionId st.peers targetId)
  · rw [hf] at h
    exact Or.inl h
  · rw [hf] at h
    by_cases hb : tp.status = "busy"
    · simp only [hb, if_true] at h
      exact Or.inl h
    · simp only [hb, if_false] at h
      rcases mem_mapSet h with rfl | h1
      · exact Or.inr rfl
      · exact Or.inl h1

theorem connectionResponse_statusInv {st : ServerState} {sock : Socket}
    {rid : String} {acc : Bool} (hs : statusInv st) (hp : pendingInv st) :
    statusInv (connectionResponse st sock rid acc).1 := by
  unfold connectionResponse
  obtain hreq | ⟨req, hreq⟩ := Option.eq_none_or_eq_some (mapGet st.pending rid)
  · simp only [hreq]
    exact hs
  · simp only [hreq]
    obtain hvp | ⟨vp, hvp⟩ := Option.eq_none_or_eq_some (findBySocketId st.peers req.viewerSocketId)
    · simp only [hvp]
      exact hs
    · simp only [hvp]
      by_cases hacc : acc = true
      · rw [if_pos hacc]
        intro kv hkv
        obtain hvc | ⟨v, hvc⟩ := Option.eq_none_or_eq_some req.viewerConnectionId
        · exact absurd hvc (hp (rid, req) (mapGet_mem hreq))
        · rw [hvc] at hkv
          rcases mem_updatePeer hkv with ⟨p, _, rfl⟩ | h1
          · exact peerOk_setBusy _ _
          · rcases mem_updatePeer h1 with ⟨p, _, rfl⟩ | h2
            · exact peerOk_setBusy _ _
            · exact hs kv h2
      · rw [if_neg hacc]
        exact hs

theorem connectionResponse_pendingInv {st : ServerState} {sock : Socket}
    {rid : String} {acc : Bool} (hp : pendingInv st) :
    pendingInv (connectionResponse st sock rid acc).1 := by
  unfold connectionResponse
  obtain hreq | ⟨req, hreq⟩ := Option.eq_none_or_eq_some (mapGet st.pending rid)
  · simp only [hreq]
    exact hp
  · simp only [hreq]
    obtain hvp | ⟨vp, hvp⟩ := Option.eq_none_or_eq_some (findBySocketId st.peers req.viewerSocketId)
    · simp only [hvp]
      intro kv hkv
      exact hp kv (mem_mapDelete hkv)
    · simp only [hvp]
      by_cases hacc : acc = true
      · rw [if_pos hacc]
        intro kv hkv
        exact hp kv (mem_mapDelete hkv)
      · rw [if_neg hacc]
        intro kv hkv
        exact hp kv (mem_mapDelete hkv)

theorem connectionResponse_map_fst (st : ServerState) (sock : Socket)
    (rid : String) (acc : Bool) :
    ((connectionResponse st sock rid acc).1.peers).map Prod.fst = st.peers.map Prod.fst := by
  unfold connectionResponse
  obtain hreq | ⟨req, hreq⟩ := Option.eq_none_or_eq_some (mapGet st.pending rid)
  · simp only [hreq]
  · simp only [hreq]
    obtain hvp | ⟨vp, hvp⟩ := Option.eq_none_or_eq_some (findBySocketId st.peers req.viewerSocketId)
    · simp only [hvp]
    · simp only [hvp]
      by_cases hacc : acc = true
      · rw [if_pos hacc]
        obtain hvc | ⟨v, hvc⟩ := Option.eq_none_or_eq_some req.viewerConnectionId
        · rw [hvc]
          exact map_fst_updatePeer _ _ _
        · rw [hvc]
          exact (map_fst_updatePeer _ _ _).trans (map_fst_updatePeer _ _ _)
      · rw [if_neg hacc]

theorem endSessionTarget_statusInv {ps : List (String × Peer)} {fromId : Option String}
    {targetId : String} (hs : ∀ kv ∈ ps, peerOk kv.2) :
    ∀ kv ∈ (endSessionTarget ps fromId targetId).1, peerOk kv.2 := by
  unfold endSessionTarget
  obtain hf | ⟨⟨k, p⟩, hf⟩ := Option.eq_none_or_eq_some (findEntryByConnectionId ps targetId)
  · simp only [hf]
    exact hs
  · simp only [hf]
    intro kv hkv
    rcases mem_mapSet hkv with rfl | h1
    · exact peerOk_setAvailable _
    · exact hs kv h1

theorem endSessionTarget_map_fst (ps : List (String × Peer)) (fromId : Option String)
    (targetId : String) :
    ((endSessionTarget ps fromId targetId).1).map Prod.fst = ps.map Prod.fst := by
  unfold endSessionTarget
  obtain hf | ⟨⟨k, p⟩, hf⟩ := Option.eq_none_or_eq_some (findEntryByConnectionId ps targetId)
  · simp only [hf]
  · simp only [hf]
    exact map_fst_mapSet_of_has (mapHas_of_mem (findEntryByConnectionId_some hf).1) _

theorem endSession_statusInv {st : ServerState} {sock : Socket} {targetId : String}
    (hs : statusInv st) : statusInv (endSession st sock targetId).1 := by
  unfold endSession
  obtain hc | ⟨cid, hc⟩ := Option.eq_none_or_eq_some sock.connectionId
  · simp only [hc]
    exact endSessionTarget_statusInv hs
  · simp only [hc]
    intro kv hkv
    rcases mem_updatePeer hkv with ⟨p, _, rfl⟩ | h1
    · exact peerOk_setAvailable _
    · exact endSessionTarget_statusInv hs kv h1

theorem endSession_map_fst (st : ServerState) (sock : Socket) (targetId : String) :
    ((endSession st sock targetId).1.peers).map Prod.fst = st.peers.map Prod.fst := by
  unfold endSession
  obtain hc | ⟨cid, hc⟩ := Option.eq_none_or_eq_some sock.connectionId
  · simp only [hc]
    exact endSessionTarget_map_fst _ _ _
  · simp only [hc]
    exact (map_fst_updatePeer _ _ _).trans (endSessionTarget_map_fst _ _ _)

theorem resetConnectedPeer_statusInv {ps : List (String × Peer)} {did : String}
    {ct? : Option String} (hs : ∀ kv ∈ ps, peerOk kv.2) :
    ∀ kv ∈ (resetConnectedPeer ps did ct?).1, peerOk kv.2 := by
  rcases ct? with _ | ct
  · exact hs
  · obtain hf | ⟨⟨k, cp⟩, hf⟩ := Option.eq_none_or_eq_some (findEntryByConnectionId ps ct)
    · simp only [resetConnectedPeer, hf]
      exact hs
    · simp only [resetConnectedPeer, hf]
      intro kv hkv
      rcases mem_mapSet hkv with rfl | h1
      · exact peerOk_setAvailable _
      · exact hs kv h1

theorem resetConnectedPeer_map_fst (ps : List (String × Peer)) (did : String)
    (ct? : Option String) :
    ((resetConnectedPeer ps did ct?).1).map Prod.fst = ps.map Prod.fst := by
  rcases ct? with _ | ct
  · rfl
  · obtain hf | ⟨⟨k, cp⟩, hf⟩ := Option.eq_none_or_eq_some (findEntryByConnectionId ps ct)
    · simp only [resetConnectedPeer, hf]
    · simp only [resetConnectedPeer, hf]
      exact map_fst_mapSet_of_has (mapHas_of_mem (findEntryByConnectionId_some hf).1) _

theorem graceCleanup_statusInv {st : ServerState} {did csid : String}
    (hs : statusInv st) : statusInv (graceCleanup st did csid).1 := by
  unfold graceCleanup
  obtain hg | ⟨peer, hg⟩ := Option.eq_none_or_eq_some (mapGet st.peers did)
  · simp only [hg]
    exact hs
  · simp only [hg]
    by_cases heq : peer.socketId = csid
    · rw [if_neg (not_not_intro heq)]
      intro kv hkv
      exact resetConnectedPeer_statusInv hs kv (mem_mapDelete hkv)
    · rw [if_pos heq]
      exact hs

theorem graceCleanup_pendingInv {st : ServerState} {did csid : String}
    (hp : pendingInv st) : pendingInv (graceCleanup st did csid).1 := by
  unfold graceCleanup
  obtain hg | ⟨peer, hg⟩ := Option.eq_none_or_eq_some (mapGet st.peers did)
  · simp only [hg]
    exact hp
  · simp only [hg]
    by_cases heq : peer.socketId = csid
    · rw [if_neg (not_not_intro heq)]
      intro kv hkv
      exact hp kv (reapPending_mem hkv).1
    · rw [if_pos heq]
      exact hp

theorem graceCleanup_map_fst_sublist (st : ServerState) (did csid : String) :
    (((graceCleanup st did csid).1.peers).map Prod.fst).Sublist (st.peers.map Prod.fst) := by
  unfold graceCleanup
  obtain hg | ⟨peer, hg⟩ := Option.eq_none_or_eq_some (mapGet st.peers did)
  · simp only [hg]
    exact List.Sublist.refl _
  · simp only [hg]
    by_cases heq : peer.socketId = csid
    · rw [if_neg (not_not_intro heq)]
      have h1 := map_fst_mapDelete_sublist (resetConnectedPeer st.peers did peer.connectedTo).1 did
      rw [resetConnectedPeer_map_fst] at h1
      exact h1
    · rw [if_pos heq]

theorem keysInv_of_map_fst {st st1 : ServerState}
    (h : st1.peers.map Prod.fst = st.peers.map Prod.fst) (hk : keysInv st) : keysInv st1 := by
  constructor
  · rw [h]
    exact hk.1
  · intro k hkm
    rw [h] at hkm
    exact hk.2 k hkm

theorem keysInv_of_sublist {st st1 : ServerState}
    (h : (st1.peers.map Prod.fst).Sublist (st.peers.map Prod.fst)) (hk : keysInv st) :
    keysInv st1 := by
  constructor
  · exact hk.1.sublist h
  · intro k hkm
    exact hk.2 k (h.subset hkm)

theorem registeredSender_some {w : World} {sid : String} {cid? : Option String}
    (h : registeredSender w sid = true) (hg : mapGet w.socks sid = some cid?) :
    ∃ v, cid? = some v := by
  unfold registeredSender at h
  rw [hg] at h
  rcases cid? with _ | v
  · simp at h
  · exact ⟨v, rfl⟩

theorem step_regInv {w : World} {e : Event} (hwf : regWfEvent w e = true)
    (hs : statusInv w.st) (hp : pendingInv w.st) :
    statusInv (stepW w e).st ∧ pendingInv (stepW w e).st := by
  cases e with
  | connect sid => exact ⟨hs, hp⟩
  | register sid pref draws =>
    simp only [stepW]
    obtain hcs | ⟨cid?, hcs⟩ := Option.eq_none_or_eq_some (mapGet w.socks sid)
    · simp only [hcs]
      exact ⟨hs, hp⟩
    · simp only [hcs]
      obtain hr | ⟨⟨st1, sock1, cid⟩, hr⟩ :=
        Option.eq_none_or_eq_some (register w.st ⟨sid, cid?⟩ pref draws)
      · simp only [hr]
        exact ⟨hs, hp⟩
      · simp only [hr]
        rcases register_some hr with ⟨h1, _, _, _⟩ | ⟨hfree, hpeers, hpend, _, _⟩
        · exact ⟨by rw [h1]; exact hs, by rw [h1]; exact hp⟩
        · constructor
          · intro kv hkv
            rw [hpeers] at hkv
            rcases mem_mapSet hkv with rfl | h1
            · exact peerOk_newPeer _
            · exact hs kv h1
          · intro kv hkv
            rw [hpend] at hkv
            exact hp kv hkv
  | requestConnection sid targetId vn pw fresh =>
    simp only [stepW]
    obtain hcs | ⟨cid?, hcs⟩ := Option.eq_none_or_eq_some (mapGet w.socks sid)
    · simp only [hcs]
      exact ⟨hs, hp⟩
    · simp only [hcs]
      constructor
      · intro kv hkv
        rw [requestConnection_peers] at hkv
        exact hs kv hkv
      · intro kv hkv
        rcases requestConnection_pending_mem hkv with h1 | h1
        · exact hp kv h1
        · simp only [regWfEvent, Bool.and_eq_true] at hwf
          obtain ⟨v, rfl⟩ := registeredSender_some hwf.2 hcs
          rw [h1]
          simp
  | connectionResponse sid rid acc =>
    simp only [stepW]
    obtain hcs | ⟨cid?, hcs⟩ := Option.eq_none_or_eq_some (mapGet w.socks sid)
    · simp only [hcs]
      exact ⟨hs, hp⟩
    · simp only [hcs]
      exact ⟨connectionResponse_statusInv hs hp, connectionResponse_pendingInv hp⟩
  | endSession sid targetId =>
    simp only [stepW]
    obtain hcs | ⟨cid?, hcs⟩ := Option.eq_none_or_eq_some (mapGet w.socks sid)
    · simp only [hcs]
      exact ⟨hs, hp⟩
    · simp only [hcs]
      refine ⟨endSession_statusInv hs, ?_⟩
      intro kv hkv
      exact hp kv hkv
  | relay sid kind targetId => exact ⟨hs, hp⟩
  | disconnect sid =>
    simp only [stepW]
    obtain hcs | ⟨cid?, hcs⟩ := Option.eq_none_or_eq_some (mapGet w.socks sid)
    · simp only [hcs]
      exact ⟨hs, hp⟩
    · simp only [hcs]
      rcases cid? with _ | cid
      · exact ⟨hs, hp⟩
      · exact ⟨hs, hp⟩
  | graceFire did csid =>
    exact ⟨graceCleanup_statusInv hs, graceCleanup_pendingInv hp⟩

theorem regReach_inv {tr : List Event} {w : World} (h : RegReach tr w) :
    statusInv w.st ∧ pendingInv w.st := by
  induction h with
  | init =>
    constructor
    · intro kv hkv
      simp [world0] at hkv
    · intro kv hkv
      simp [world0] at hkv
  | next hprev hwf ih => exact step_regInv hwf ih.1 ih.2

theorem step_keysInv {w : World} {e : Event} (hwf : wfEvent w e = true)
    (hk : keysInv w.st) : keysInv (stepW w e).st := by
  cases e with
  | connect sid => exact hk
  | register sid pref draws =>
    simp only [stepW]
    obtain hcs | ⟨cid?, hcs⟩ := Option.eq_none_or_eq_some (mapGet w.socks sid)
    · simp only [hcs]
      exact hk
    · simp only [hcs]
      obtain hr | ⟨⟨st1, sock1, cid⟩, hr⟩ :=
        Option.eq_none_or_eq_some (register w.st ⟨sid, cid?⟩ pref draws)
      · simp only [hr]
        exact hk
      · simp only [hr]
        have hdraws : drawsOk draws = true := by
          simp only [wfEvent, Bool.and_eq_true] at hwf
          exact hwf.2
        rcases register_some hr with ⟨h1, _, _, _⟩ | ⟨hfree, hpeers, _, _, hchoice⟩
        · rw [h1]
          exact hk
        · have hcanon := register_new_key_canonical hdraws hchoice
          have hnotin : cid ∉ w.st.peers.map Prod.fst :=
            mapGet_eq_none_iff.mp (mapHas_false_get hfree)
          constructor
          · rw [hpeers, mapSet_eq_append hfree, List.map_append]
            rw [List.nodup_append]
            refine ⟨hk.1, by simp, ?_⟩
            intro a ha hb
            simp only [List.map_cons, List.map_nil, List.mem_singleton] at hb
            subst hb
            exact hnotin ha
          · intro k hkm
            rw [hpeers, mapSet_eq_append hfree, List.map_append] at hkm
            rcases List.mem_append.mp hkm with h1 | h1
            · exact hk.2 k h1
            · simp only [List.map_cons, List.map_nil, List.mem_singleton] at h1
              subst h1
              exact hcanon
  | requestConnection sid targetId vn pw fresh =>
    simp only [stepW]
    obtain hcs | ⟨cid?, hcs⟩ := Option.eq_none_or_eq_some (mapGet w.socks sid)
    · simp only [hcs]
      exact hk
    · simp only [hcs]
      exact keysInv_of_map_fst (by rw [requestConnection_peers]) hk
  | connectionResponse sid rid acc =>
    simp only [stepW]
    obtain hcs | ⟨cid?, hcs⟩ := Option.eq_none_or_eq_some (mapGet w.socks sid)
    · simp only [hcs]
      exact hk
    · simp only [hcs]
      exact keysInv_of_map_fst (connectionResponse_map_fst _ _ _ _) hk
  | endSession sid targetId =>
    simp only [stepW]
    obtain hcs | ⟨cid?, hcs⟩ := Option.eq_none_or_eq_some (mapGet w.socks sid)
    · simp only [hcs]
      exact hk
    · simp only [hcs]
      exact keysInv_of_map_fst (endSession_map_fst _ _ _) hk
  | relay sid kind targetId => exact hk
  | disconnect sid =>
    simp only [stepW]
    obtain hcs | ⟨cid?, hcs⟩ := Option.eq_none_or_eq_some (mapGet w.socks sid)
    · simp only [hcs]
      exact hk
    · simp only [hcs]
      rcases cid? with _ | cid
      · exact hk
      · exact hk
  | graceFire did csid =>
    exact keysInv_of_sublist (graceCleanup_map_fst_sublist _ _ _) hk

theorem reach_keysInv {tr : List Event} {w : World} (h : Reach tr w) : keysInv w.st := by
  induction h with
  | init =>
    constructor
    · simp [world0]
    · intro k hkm
      simp [world0] at hkm
  | next hprev hwf ih => exact step_keysInv hwf ih

/-! Additional helper lemmas for the claim theorems. -/

theorem mem_mapDelete_ne {α : Type} {m : List (String × α)} {k : String}
    {kv : String × α} (h : kv ∈ mapDelete m k) : kv.1 ≠ k := by
  rw [mapDelete_eq_filter] at h
  have h2 := List.of_mem_filter h
  simpa [bne_iff_ne] using h2

theorem resetConnectedPeer_emits {ps : List (String × Peer)} {did : String}
    {ct? : Option String} :
    ∀ m ∈ (resetConnectedPeer ps did ct?).2, ∃ s, m = Emit.peerDisconnected s did := by
  rcases ct? with _ | ct
  · intro m hm
    simp [resetConnectedPeer] at hm
  · obtain hf | ⟨⟨k, cp⟩, hf⟩ := Option.eq_none_or_eq_some (findEntryByConnectionId ps ct)
    · intro m hm
      simp [resetConnectedPeer, hf] at hm
    · intro m hm
      simp only [resetConnectedPeer, hf, List.mem_singleton] at hm
      exact ⟨cp.socketId, hm⟩

theorem connectionResponse_none {st : ServerState} {sock : Socket} {rid : String}
    {acc : Bool} (h : mapGet st.pending rid = none) :
    connectionResponse st sock rid acc = (st, []) := by
  unfold connectionResponse
  simp only [h]

theorem register_eq_fresh {st : ServerState} {sock : Socket} {pref : Option String}
    {draws : List Nat}
    (h : ∀ cid, sock.connectionId = some cid → mapHas st.peers cid = false) :
    register st sock pref draws = registerFresh st sock pref draws := by
  unfold register
  obtain hc | ⟨c, hc⟩ := Option.eq_none_or_eq_some sock.connectionId
  · rw [hc]
  · rw [hc]
    simp [h c hc]

/-! Claim theorems. -/

/-- C3: when the grace-period task fires for an identifier whose registry
entry is owned by a transport handle different from the one captured at
disconnect time (the identifier was registered again by a different transport
session before the task fired), the task takes no action: no notification is
sent, the registry entry is not deleted, and the pairing state is untouched
(the whole server state is returned unchanged with no emissions). -/
theorem c3_grace_skip_on_reregistration (st : ServerState) (did csid : String) (p : Peer)
    (hget : mapGet st.peers did = some p) (hne : p.socketId ≠ csid) :
    graceCleanup st did csid = (st, []) := by
  unfold graceCleanup
  simp only [hget]
  rw [if_pos hne]

/-- c3 witness at a concrete state. -/
theorem c3_witness :
    graceCleanup ⟨[("111-222-333", ⟨"sNew", "busy", some "444-555-666"⟩)], []⟩
        "111-222-333" "sOld"
      = (⟨[("111-222-333", ⟨"sNew", "busy", some "444-555-666"⟩)], []⟩, []) :=
  c3_grace_skip_on_reregistration _ "111-222-333" "sOld"
    ⟨"sNew", "busy", some "444-555-666"⟩ (by decide) (by decide)

/-- C4: request-connection fails with the peer-not-found error, no pending
request and no notification, exactly when no registered peer has the same
dash-stripped identifier as the target; it fails with the peer-busy error
and no side effect when the target is busy; otherwise it stores a new
PendingRequest, notifies the target transport of the requester identifier,
display name and pass-through password, and returns the fresh requestId
synchronously. -/
theorem c4_request_connection (st : ServerState) (sock : Socket) (targetId : String)
    (vn pw : Option String) (freshId : String) :
    (findEntryByConnectionId st.peers targetId = none ↔
        ∀ kv ∈ st.peers, stripDashes kv.1 ≠ stripDashes targetId) ∧
    (findEntryByConnectionId st.peers targetId = none →
        requestConnection st sock targetId vn pw freshId
          = (st, [], RCResult.err "Peer not found or offline")) ∧
    (∀ k tp, findEntryByConnectionId st.peers targetId = some (k, tp) →
        tp.status = "busy" →
        requestConnection st sock targetId vn pw freshId
          = (st, [], RCResult.err "Peer is busy with another session")) ∧
    (∀ k tp, findEntryByConnectionId st.peers targetId = some (k, tp) →
        tp.status ≠ "busy" →
        requestConnection st sock targetId vn pw freshId
          = ({ st with pending := mapSet st.pending freshId ⟨sock.sid, sock.connectionId, tp.socketId, k⟩ },
             [Emit.connectionRequest tp.socketId freshId sock.connectionId
                (orDefault vn "Unknown") (orUndef pw)],
             RCResult.ok freshId)) := by
  refine ⟨findEntryByConnectionId_none, ?_, ?_, ?_⟩
  · intro h
    unfold requestConnection
    simp only [h]
  · intro k tp h hb
    unfold requestConnection
    simp only [h]
    rw [if_pos hb]
  · intro k tp h hb
    unfold requestConnection
    simp only [h]
    rw [if_neg hb]

/-- c4 witness: the success branch at a concrete state. -/
theorem c4_witness :
    requestConnection ⟨[("111-222-333", ⟨"sH", "available", none⟩)], []⟩
        ⟨"sV", some "444-555-666"⟩ "111222333" (some "alice") none "r1"
      = (⟨[("111-222-333", ⟨"sH", "available", none⟩)],
          [("r1", ⟨"sV", some "444-555-666", "sH", "111-222-333"⟩)]⟩,
         [Emit.connectionRequest "sH" "r1" (some "444-555-666") "alice" none],
         RCResult.ok "r1") :=
  (c4_request_connection ⟨[("111-222-333", ⟨"sH", "available", none⟩)], []⟩
      ⟨"sV", some "444-555-666"⟩ "111222333" (some "alice") none "r1").2.2.2
    "111-222-333" ⟨"sH", "available", none⟩ (by decide) (by decide)

/-- C5: connection-response is a silent no-op when the requestId names no
pending request; when the request exists but the requesting viewer socket no
longer owns a registry record the request is deleted with no notification;
on accept (with both records present and distinct) host and viewer become
busy pointing at each other and the viewer transport is notified of
acceptance with the host identifier; on reject the viewer transport is
notified of rejection; in every resolved case the request is deleted, so a
second response to the same requestId is a no-op. -/
theorem c5_connection_response (st : ServerState) (sock : Socket) (rid : String)
    (acc : Bool) :
    (mapGet st.pending rid = none → connectionResponse st sock rid acc = (st, [])) ∧
    (∀ req, mapGet st.pending rid = some req →
        findBySocketId st.peers req.viewerSocketId = none →
        connectionResponse st sock rid acc
          = ({ st with pending := mapDelete st.pending rid }, [])) ∧
    (∀ req vp hp vcid vpp, mapGet st.pending rid = some req →
        findBySocketId st.peers req.viewerSocketId = some vp →
        acc = true →
        req.viewerConnectionId = some vcid →
        mapGet st.peers req.hostConnectionId = some hp →
        mapGet st.peers vcid = some vpp →
        req.hostConnectionId ≠ vcid →
        mapGet (connectionResponse st sock rid acc).1.peers req.hostConnectionId
            = some (setBusy (some vcid) hp) ∧
        mapGet (connectionResponse st sock rid acc).1.peers vcid
            = some (setBusy (some req.hostConnectionId) vpp) ∧
        (connectionResponse st sock rid acc).2
            = [Emit.connectionAccepted vp.socketId req.hostConnectionId]) ∧
    (∀ req vp, mapGet st.pending rid = some req →
        findBySocketId st.peers req.viewerSocketId = some vp →
        acc = false →
        connectionResponse st sock rid acc
          = ({ st with pending := mapDelete st.pending rid },
             [Emit.connectionRejected vp.socketId req.hostConnectionId])) ∧
    (∀ req, mapGet st.pending rid = some req →
        ∀ sock2 acc2,
          connectionResponse (connectionResponse st sock rid acc).1 sock2 rid acc2
            = ((connectionResponse st sock rid acc).1, [])) := by
  refine ⟨connectionResponse_none, ?_, ?_, ?_, ?_⟩
  · intro req hreq hvp
    unfold connectionResponse
    simp only [hreq, hvp]
  · intro req vp hp vcid vpp hreq hvp hacc hvc hhp hvpp hne
    unfold connectionResponse
    simp only [hreq, hvp]
    rw [if_pos hacc]
    simp only [hvc]
    refine ⟨?_, ?_, trivial⟩
    · rw [updatePeer_get_ne _ _ _ hne, updatePeer_get_self _ hhp]
    · have h1 : mapGet (updatePeer st.peers req.hostConnectionId (setBusy (some vcid))) vcid
          = some vpp := by
        rw [updatePeer_get_ne _ _ _ (Ne.symm hne)]
        exact hvpp
      rw [updatePeer_get_self _ h1]
  · intro req vp hreq hvp hacc
    unfold connectionResponse
    simp only [hreq, hvp]
    rw [if_neg (by simp [hacc])]
  · intro req hreq sock2 acc2
    have hnone : mapGet (connectionResponse st sock rid acc).1.pending rid = none := by
      unfold connectionResponse
      simp only [hreq]
      obtain hvp | ⟨vp, hvp⟩ :=
        Option.eq_none_or_eq_some (findBySocketId st.peers req.viewerSocketId)
      · simp only [hvp]
        exact mapGet_mapDelete_self _ _
      · simp only [hvp]
        by_cases hacc : acc = true
        · rw [if_pos hacc]
          exact mapGet_mapDelete_self _ _
        · rw [if_neg hacc]
          exact mapGet_mapDelete_self _ _
    exact connectionResponse_none hnone

/-- c5 witness: the accept branch at a concrete state. -/
theorem c5_witness :
    mapGet (connectionResponse
        ⟨[("111-222-333", ⟨"sH", "available", none⟩),
          ("444-555-666", ⟨"sV", "available", none⟩)],
         [("r1", ⟨"sV", some "444-555-666", "sH", "111-222-333"⟩)]⟩
        ⟨"sH", some "111-222-333"⟩ "r1" true).1.peers "111-222-333"
      = some ⟨"sH", "busy", some "444-555-666"⟩ := by
  have h := ((c5_connection_response
      ⟨[("111-222-333", ⟨"sH", "available", none⟩),
        ("444-555-666", ⟨"sV", "available", none⟩)],
       [("r1", ⟨"sV", some "444-555-666", "sH", "111-222-333"⟩)]⟩
      ⟨"sH", some "111-222-333"⟩ "r1" true).2.2.1
      ⟨"sV", some "444-555-666", "sH", "111-222-333"⟩ ⟨"sV", "available", none⟩
      ⟨"sH", "available", none⟩ "444-555-666" ⟨"sV", "available", none⟩
      (by decide) (by decide) rfl rfl (by decide) (by decide) (by decide)).1
  exact h

/-- C9: register is idempotent per live transport session: after a register
call returns an identifier, a second register call with the resulting socket
state returns the same identifier and leaves the whole server state (in
particular the registry) unchanged, creating no second entry. -/
theorem c9_register_idempotent (st st1 : ServerState) (sock sock1 : Socket)
    (pref pref2 : Option String) (draws draws2 : List Nat) (cid : String)
    (h : register st sock pref draws = some (st1, sock1, cid)) :
    register st1 sock1 pref2 draws2 = some (st1, sock1, cid) := by
  have hconn : sock1.connectionId = some cid ∧ mapHas st1.peers cid = true := by
    rcases register_some h with ⟨h1, h2, h3, h4⟩ | ⟨hfree, hpeers, _, hsock, _⟩
    · constructor
      · rw [h2]
        exact h3
      · rw [h1]
        exact h4
    · constructor
      · rw [hsock]
      · rw [hpeers]
        simp [mapHas, mapGet_mapSet_self]
  unfold register
  simp [hconn.1, hconn.2]

/-- c9 witness: registering on the state produced by a first registration. -/
theorem c9_witness :
    register ⟨[("111-222-333", ⟨"s1", "available", none⟩)], []⟩
        ⟨"s1", some "111-222-333"⟩ none []
      = some (⟨[("111-222-333", ⟨"s1", "available", none⟩)], []⟩,
              ⟨"s1", some "111-222-333"⟩, "111-222-333") :=
  c9_register_idempotent ⟨[], []⟩ _ ⟨"s1", none⟩ _ (some "111222333") none [] []
    "111-222-333" (by decide)

/-- C10: the effect of connection-response depends only on the requestId and
the accepted flag, never on which transport session sends it: the handler
ignores the sender socket entirely, so any two senders produce identical
results (same state change and same notifications). -/
theorem c10_response_sender_independent (st : ServerState) (s1 s2 : Socket)
    (rid : String) (acc : Bool) :
    connectionResponse st s1 rid acc = connectionResponse st s2 rid acc := rfl

/-- C6: when the grace-period task fires for an identifier whose entry still
carries the captured transport handle, the entry is deleted; a paired peer
(when found) is notified of the disconnect and reset to available with no
partner; every pending request hosted by the disconnected identifier is
removed, with its viewer notified of a rejection with the disconnect reason
whenever the viewer socket still owns a record; every pending request issued
by the disconnected identifier is removed; and the only messages sent are
those disconnect notifications and rejections. -/
theorem c6_grace_reclaim (st : ServerState) (did csid : String) (p : Peer)
    (hget : mapGet st.peers did = some p) (hcap : p.socketId = csid) :
    (∀ kv ∈ (graceCleanup st did csid).1.peers, kv.1 ≠ did) ∧
    (∀ ct k cp, p.connectedTo = some ct →
        findEntryByConnectionId st.peers ct = some (k, cp) →
        Emit.peerDisconnected cp.socketId did ∈ (graceCleanup st did csid).2 ∧
        (k ≠ did → mapGet (graceCleanup st did csid).1.peers k = some (setAvailable cp))) ∧
    (∀ kv ∈ (graceCleanup st did csid).1.pending,
        kv.2.hostConnectionId ≠ did ∧ kv.2.viewerConnectionId ≠ some did) ∧
    (∀ kv ∈ st.pending, kv.2.hostConnectionId = did →
        (∃ pkv ∈ st.peers, pkv.2.socketId = kv.2.viewerSocketId) →
        Emit.connectionRejectedDisconnect kv.2.viewerSocketId ∈ (graceCleanup st did csid).2) ∧
    (∀ m ∈ (graceCleanup st did csid).2,
        (∃ s, m = Emit.peerDisconnected s did) ∨
        (∃ s, m = Emit.connectionRejectedDisconnect s)) := by
  unfold graceCleanup
  simp only [hget]
  rw [if_neg (not_not_intro hcap)]
  refine ⟨?_, ?_, ?_, ?_, ?_⟩
  · intro kv hkv
    exact mem_mapDelete_ne hkv
  · intro ct k cp hct hf
    simp only [hct, resetConnectedPeer, hf]
    constructor
    · simp [List.mem_append]
    · intro hkne
      rw [mapGet_mapDelete_ne _ hkne, mapGet_mapSet_self]
  · intro kv hkv
    exact (reapPending_mem hkv).2
  · intro kv hkv hhost hreg
    obtain ⟨pkv, hpkv, hsid⟩ := hreg
    have h1 : kv.2.viewerSocketId ∈
        ((resetConnectedPeer st.peers did p.connectedTo).1).map (fun e => e.2.socketId) := by
      rw [resetConnectedPeer_socketIds]
      exact List.mem_map.mpr ⟨pkv, hpkv, hsid⟩
    have h2 : ∃ e ∈ (resetConnectedPeer st.peers did p.connectedTo).1,
        e.2.socketId = kv.2.viewerSocketId := by
      obtain ⟨e, he, hee⟩ := List.mem_map.mp h1
      exact ⟨e, he, hee⟩
    have h3 := findBySocketId_isSome.mpr h2
    obtain ⟨vp, hvp⟩ := Option.isSome_iff_exists.mp h3
    have h4 := reapPending_notify hkv hhost hvp
    rw [findBySocketId_socketId hvp] at h4
    exact List.mem_append_right _ h4
  · intro m hm
    rcases List.mem_append.mp hm with h | h
    · obtain ⟨s, rfl⟩ := resetConnectedPeer_emits m h
      exact Or.inl ⟨s, rfl⟩
    · obtain ⟨s, rfl⟩ := reapPending_emits h
      exact Or.inr ⟨s, rfl⟩

/-- stC6v is a concrete state used to exercise the grace-period cleanup. -/
def stC6v : ServerState :=
  ⟨[("111-222-333", ⟨"sH", "busy", some "444-555-666"⟩),
    ("444-555-666", ⟨"sV", "busy", some "111-222-333"⟩)],
   [("r9", ⟨"sW", some "777-888-999", "sH", "111-222-333"⟩)]⟩

/-- c6 witness: the paired peer of a reclaimed host receives the disconnect
notification. -/
theorem c6_witness :
    Emit.peerDisconnected "sV" "111-222-333" ∈ (graceCleanup stC6v "111-222-333" "sH").2 :=
  ((c6_grace_reclaim stC6v "111-222-333" "sH" ⟨"sH", "busy", some "444-555-666"⟩
      (by decide) rfl).2.1 "444-555-666" "444-555-666"
      ⟨"sV", "busy", some "111-222-333"⟩ rfl (by decide)).1

/-- C7: every identifier produced by generation from a 9 digit random draw
has the shape of three digit groups of length three joined by dashes, and in
every reachable server state no two registered peers share a dash-stripped
identifier, whether assigned by generation or by preferred identifier
adoption. -/
theorem c7_ids :
    (∀ n : Nat, 100000000 ≤ n → n < 1000000000 →
        isIdFormat (generateConnectionId n) = true) ∧
    (∀ (tr : List Event) (w : World), Reach tr w →
        w.st.peers.Pairwise (fun a b => stripDashes a.1 ≠ stripDashes b.1)) := by
  constructor
  · intro n h1 h2
    exact generateConnectionId_isIdFormat h1 h2
  · intro tr w h
    have hk := reach_keysInv h
    have hpw : w.st.peers.Pairwise (fun a b => a.1 ≠ b.1) := List.pairwise_map.mp hk.1
    refine hpw.imp_of_mem ?_
    intro a b ha hb hne heq
    exact hne (canonical_inj (hk.2 a.1 (List.mem_map_of_mem _ ha))
      (hk.2 b.1 (List.mem_map_of_mem _ hb)) heq)

/-- c7 witness: the generator output at a concrete draw. -/
theorem c7_witness : isIdFormat (generateConnectionId 123456789) = true :=
  c7_ids.1 123456789 (by decide) (by decide)

/-- trC1a is a run in which a host accepts two pending requests, with no
teardown event (no end-session, no disconnect, no grace task). -/
def trC1a : List Event :=
  [Event.connect "sH",
   Event.register "sH" (some "111222333") [],
   Event.connect "sV1",
   Event.register "sV1" (some "444555666") [],
   Event.connect "sV2",
   Event.register "sV2" (some "777888999") [],
   Event.requestConnection "sV1" "111-222-333" none none "r1",
   Event.requestConnection "sV2" "111222333" none none "r2",
   Event.connectionResponse "sH" "r1" true,
   Event.connectionResponse "sH" "r2" true]

/-- wC1a is the state reached by trC1a. -/
def wC1a : World := runEvents world0 trC1a

/-- trC1b is a run in which a socket requests a connection before
registering, then registers, and the host accepts; again no teardown
event occurs. -/
def trC1b : List Event :=
  [Event.connect "sH",
   Event.register "sH" (some "111222333") [],
   Event.connect "sV",
   Event.requestConnection "sV" "111222333" none none "r1",
   Event.register "sV" (some "444555666") [],
   Event.connectionResponse "sH" "r1" true]

/-- wC1b is the state reached by trC1b. -/
def wC1b : World := runEvents world0 trC1b

/-- C1 counterexample: both halves of the claimed invariant fail in reachable
states produced without any teardown.  In wC1a the viewer of the first
accepted request is busy pointing at the host while the busy host points at
the second viewer (pairing is not symmetric), and in wC1b the host is busy
with connectedTo unset (the busy-iff-paired biconditional fails), because
connection-response pairs blindly and stores the requester identifier as it
was at request time. -/
theorem c1_counterexample :
    (Reach trC1a wC1a ∧
      mapGet wC1a.st.peers "444-555-666" = some ⟨"sV1", "busy", some "111-222-333"⟩ ∧
      mapGet wC1a.st.peers "111-222-333" = some ⟨"sH", "busy", some "777-888-999"⟩ ∧
      some "777-888-999" ≠ some "444-555-666") ∧
    (Reach trC1b wC1b ∧
      mapGet wC1b.st.peers "111-222-333" = some ⟨"sH", "busy", none⟩) :=
  ⟨⟨reach_run (by decide), by decide, by decide, by decide⟩,
   ⟨reach_run (by decide), by decide⟩⟩

/-- C1 (amended): in every reachable state of a run in which every
connection request is issued by a registered transport session, each stored
record is busy exactly when its connectedTo field is set; the
mutual-reference half of the original claim is dropped (see the
counterexample) and the registered-requester condition is added. -/
theorem c1_amended_status_iff_connected {tr : List Event} {w : World}
    (h : RegReach tr w) :
    ∀ kv ∈ w.st.peers, (kv.2.status = "busy" ↔ kv.2.connectedTo ≠ none) :=
  fun kv hkv => (regReach_inv h).1 kv hkv

/-- c1 witness: the invariant instantiated at a record of a reachable
state. -/
theorem c1_witness :
    ("busy" = "busy") ↔ (some "111-222-333" ≠ (none : Option String)) :=
  c1_amended_status_iff_connected (@regReach_run trC1a (by decide))
    ("444-555-666", ⟨"sV1", "busy", some "111-222-333"⟩) (by decide)

/-- C2 counterexample: a supplied preferredId that is not made of digits at
all ("abcdefghi" has 9 characters and no digit) is adopted as the new
identifier "abc-def-ghi" instead of falling through to fresh generation,
which with the supplied draw would have produced "123-456-789". -/
theorem c2_counterexample :
    register ⟨[], []⟩ ⟨"s1", none⟩ (some "abcdefghi") [123456789]
      = some (⟨[("abc-def-ghi", ⟨"s1", "available", none⟩)], []⟩,
              ⟨"s1", some "abc-def-ghi"⟩, "abc-def-ghi") ∧
    (stripDashes "abcdefghi").data.all Char.isDigit = false ∧
    genLoop [] [123456789] = some (generateConnectionId 123456789) ∧
    "abc-def-ghi" ≠ generateConnectionId 123456789 :=
  ⟨by decide, by decide, by decide, by decide⟩

/-- C2 (amended): for a register call by a session without a live
registration, a supplied nonempty preferredId whose dash-stripped form has
exactly 9 characters (digits are not enforced), with its formatted key not
already stored, is adopted; in every other case the identifier comes from
the retry loop: the first random draw whose formatted identifier is not in
the registry, every earlier draw having collided. -/
theorem c2_amended_register_id_assignment (st : ServerState) (sock : Socket)
    (pref : Option String) (draws : List Nat)
    (hlive : ∀ cid, sock.connectionId = some cid → mapHas st.peers cid = false) :
    (∀ p, pref = some p → p ≠ "" → (stripDashes p).length = 9 →
        mapHas st.peers (formatId (stripDashes p)) = false →
        register st sock pref draws
          = some ({ st with peers := mapSet st.peers (formatId (stripDashes p)) (newPeer sock.sid) },
                  { sock with connectionId := some (formatId (stripDashes p)) },
                  formatId (stripDashes p))) ∧
    (preferredCandidate st.peers pref = none →
        ∀ st1 sock1 cid, register st sock pref draws = some (st1, sock1, cid) →
          genLoop st.peers draws = some cid ∧ mapHas st.peers cid = false ∧
          ∃ pre n post, draws = pre ++ n :: post ∧ cid = generateConnectionId n ∧
            ∀ m ∈ pre, mapHas st.peers (generateConnectionId m) = true) := by
  constructor
  · intro p hpref hne h9 hfree
    subst hpref
    rw [register_eq_fresh hlive]
    unfold registerFresh
    rw [preferredCandidate_adopt hne h9 hfree]
  · intro hpc st1 sock1 cid hreg
    rw [register_eq_fresh hlive] at hreg
    have hspec := registerFresh_some hreg
    rcases hspec.2.2.2.2 with hx | ⟨_, hg⟩
    · rw [hpc] at hx
      exact absurd hx (by simp)
    · refine ⟨hg, hspec.1, ?_⟩
      obtain ⟨pre, n, post, h1, h2, h3, h4⟩ := genLoop_first hg
      exact ⟨pre, n, post, h1, h2, h4⟩

/-- c2 witness: a well-formed free preferred identifier is adopted. -/
theorem c2_witness :
    register ⟨[], []⟩ ⟨"s2", none⟩ (some "111-222-333") []
      = some (⟨[("111-222-333", ⟨"s2", "available", none⟩)], []⟩,
              ⟨"s2", some "111-222-333"⟩, "111-222-333") := by
  have h := (c2_amended_register_id_assignment ⟨[], []⟩ ⟨"s2", none⟩
      (some "111-222-333") [] (by intro cid hcid; simp at hcid)).1
      "111-222-333" rfl (by decide) (by decide) (by decide)
  exact h

/-- C8 counterexample: the two queries "123 456 789" and "123456789" have
the same digit sequence, yet lookup of the first fails while lookup of the
second succeeds in a registry holding "123-456-789": the comparison removes
dashes only, not arbitrary separator characters. -/
theorem c8_counterexample :
    ("123 456 789").data.filter Char.isDigit = ("123456789").data.filter Char.isDigit ∧
    findPeerByConnectionId [("123-456-789", ⟨"s1", "available", none⟩)] "123 456 789"
      = none ∧
    findPeerByConnectionId [("123-456-789", ⟨"s1", "available", none⟩)] "123456789"
      = some ⟨"s1", "available", none⟩ :=
  ⟨by decide, by decide, by decide⟩

/-- C8 (amended): lookup ignores dashes: two queries with the same
dash-stripped form give the same result on every registry, and lookup
succeeds exactly when some stored key has the same dash-stripped form as the
query. -/
theorem c8_amended_lookup_dash_insensitive (ps : List (String × Peer)) (q1 q2 : String) :
    (stripDashes q1 = stripDashes q2 →
        findPeerByConnectionId ps q1 = findPeerByConnectionId ps q2) ∧
    ((findPeerByConnectionId ps q1).isSome = true ↔
        ∃ kv ∈ ps, stripDashes kv.1 = stripDashes q1) := by
  constructor
  · intro h
    unfold findPeerByConnectionId
    rw [findEntry_congr ps h]
  · unfold findPeerByConnectionId findEntryByConnectionId
    simp [List.find?_isSome, beq_iff_eq]

/-- c8 witness: the dashed and dashless spellings of one identifier resolve
identically. -/
theorem c8_witness :
    findPeerByConnectionId [("123-456-789", ⟨"s1", "available", none⟩)] "123-456-789"
      = findPeerByConnectionId [("123-456-789", ⟨"s1", "available", none⟩)] "123456789" :=
  (c8_amended_lookup_dash_insensitive
      [("123-456-789", ⟨"s1", "available", none⟩)] "123-456-789" "123456789").1 (by decide)
